import Mathlib

/-!
Verification development for the QLTYFramework test-automation harness.

The definitions below are a shallow embedding of the Python sources:
  * qlty/classes/core/test_reporter.py      (TestReporter)
  * qlty/classes/core/test_runner_utils.py  (TestRunnerUtils.get_testrun_totals)
  * qlty/classes/selenium/selenium_operations.py
  * qlty/classes/selenium/web_element_operations.py

Python dictionaries are embedded as insertion-ordered association lists,
timestamps as natural-number ticks, and exceptions as explicit error values
in an Except monad.  Operations that can raise KeyError or
ZeroDivisionError return Option, with none standing for the exception.
-/

namespace QLTY

/-- Test case status values stored in the results dictionary
(strings untested / passed / failed in the source). -/
inductive Status where
  | untested
  | passed
  | failed
deriving DecidableEq, Repr

/-- String rendering of a status, as interpolated into log messages. -/
def Status.str : Status → String
  | .untested => "untested"
  | .passed => "passed"
  | .failed => "failed"

/-- TestTarget enumeration from qlty/classes/core/test_target.py. -/
inductive TestTarget where
  | UI
  | API
deriving DecidableEq, Repr

/-- One per-test record of TestReporter.test_results, mirroring the
dictionary literal built in TestReporter._add_test_case.  Timestamps are
ticks (seconds); duration is an integer number of seconds as produced by
int((end_time - start_time).total_seconds()). -/
structure TestRecord where
  status : Status
  start_time : Nat
  end_time : Option Nat
  duration : Option Int
  test_case_ids : List Nat
  message : String
  feature_name : String
  test_target : TestTarget
deriving DecidableEq, Repr

/-- Insertion-ordered association-list lookup, embedding Python dict
subscript read / dict.get. -/
def lookupA {κ β : Type} [DecidableEq κ] : List (κ × β) → κ → Option β
  | [], _ => none
  | (k2, v) :: rest, k => if k2 = k then some v else lookupA rest k

/-- Insertion-ordered association-list write, embedding Python dict
subscript assignment: replace in place when the key exists, else append. -/
def setA {κ β : Type} [DecidableEq κ] : List (κ × β) → κ → β → List (κ × β)
  | [], k, v => [(k, v)]
  | (k2, v2) :: rest, k, v =>
    if k2 = k then (k2, v) :: rest else (k2, v2) :: setA rest k v

/-- TestReporter.test_results: dict mapping class name to dict mapping
method name to record. -/
abbrev Store := List (String × List (String × TestRecord))

/-- Read test_results[c][m], none when either key is missing (KeyError). -/
def storeFind (s : Store) (c m : String) : Option TestRecord :=
  (lookupA s c).bind (fun inner => lookupA inner m)

/-- Apply a field update to test_results[c][m]; none models the KeyError
raised when the class or method entry is absent. -/
def updateRecord (s : Store) (c m : String) (f : TestRecord → TestRecord) :
    Option Store :=
  match lookupA s c with
  | none => none
  | some inner =>
    match lookupA inner m with
    | none => none
    | some r => some (setA s c (setA inner m (f r)))

/-- The fresh record dictionary created by TestReporter._add_test_case. -/
def freshRecord (now : Nat) (feature : String) (target : TestTarget) :
    TestRecord :=
  { status := Status.untested
    start_time := now
    end_time := none
    duration := none
    test_case_ids := []
    message := ""
    feature_name := feature
    test_target := target }

/-- TestReporter._add_test_case: create the class entry when missing, then
assign a fresh record under the method name (overwriting any prior one). -/
def add_test_case (s : Store) (c m : String) (now : Nat) (feature : String)
    (target : TestTarget) : Store :=
  let s1 := match lookupA s c with
    | none => setA s c []
    | some _ => s
  let inner := (lookupA s1 c).getD []
  setA s1 c (setA inner m (freshRecord now feature target))

/-- Mutable state of the TestReporter instance: the test_results dict and
the external_case_ids dict. -/
structure ReporterState where
  test_results : Store
  external_case_ids : List (Nat × Nat)
deriving DecidableEq, Repr

/-- The class-attribute initial state: both dictionaries empty. -/
def initState : ReporterState := { test_results := [], external_case_ids := [] }

/-- TestReporter.register_test_case: _add_test_case followed by
_add_external_test_case_ids (which sets the test_case_ids field of the
just-created record and registers each id in external_case_ids).  The
record update always succeeds because _add_test_case just created the
entry; getD covers the impossible branch. -/
def register_test_case (st : ReporterState) (c m : String) (ids : List Nat)
    (feature : String) (target : TestTarget) (now : Nat) : ReporterState :=
  let s1 := add_test_case st.test_results c m now feature target
  let s2 := (updateRecord s1 c m (fun r => { r with test_case_ids := ids })).getD s1
  { test_results := s2
    external_case_ids := ids.foldl (fun acc i => setA acc i i) st.external_case_ids }

/-- TestReporter.add_test_case_result: set end_time, derive duration from
start_time, and set status to passed when the outcome exists and reports
success.  outcome models test_case_result._outcome (none when the
attribute is None, some b for its success flag).  none models the KeyError
on an unregistered test. -/
def add_test_case_result (s : Store) (c m : String) (now : Nat)
    (outcome : Option Bool) : Option Store :=
  updateRecord s c m (fun r =>
    { r with
      end_time := some now
      duration := some ((now : Int) - (r.start_time : Int))
      status := if outcome = some true then Status.passed else r.status })

/-- One (test case, stack trace) tuple from the runner's failures or
errors list.  description models the description attribute used only for
unittest _ErrorHolder entries. -/
structure FailEntry where
  test_class : String
  test_method : String
  description : String
  stack_trace : String
deriving DecidableEq, Repr

/-- The class qualname unittest gives to setup-level failure holders. -/
def errorHolder : String := "_ErrorHolder"

/-- TestReporter._get_failed_results: walk the list; on an _ErrorHolder
entry log critically and RETURN (skipping every remaining entry of this
list); otherwise set status failed and message on the record, raising
KeyError (none) when no record exists.  The String list collects the
critical log lines. -/
def get_failed_results : Store → List FailEntry → Option (Store × List String)
  | s, [] => some (s, [])
  | s, e :: rest =>
    if e.test_class = errorHolder then
      some (s, ["SetUp method failure for Class or Test Case: " ++ e.description])
    else
      match updateRecord s e.test_class e.test_method
          (fun r => { r with status := Status.failed, message := e.stack_trace }) with
      | none => none
      | some s2 => get_failed_results s2 rest

/-- TestReporter.get_results: process the failures list, then the errors
list (each with its own early-return behaviour). -/
def get_results (s : Store) (failures errors : List FailEntry) :
    Option (Store × List String) :=
  match get_failed_results s failures with
  | none => none
  | some (s1, logs1) =>
    match get_failed_results s1 errors with
    | none => none
    | some (s2, logs2) => some (s2, logs1 ++ logs2)

/-! ### Aggregator: TestRunnerUtils.get_testrun_totals -/

/-- All records of the store in iteration order (the nested for loops of
get_testrun_totals walk classes, then methods, in insertion order). -/
def allRecords (s : Store) : List TestRecord :=
  s.foldr (fun cls acc => cls.2.map Prod.snd ++ acc) []

/-- Number of records counted into passed_testcases by the loop. -/
def countPassed (s : Store) : Nat :=
  (allRecords s).countP (fun r => r.status == Status.passed)

/-- Number of records counted into failed_testcases by the loop. -/
def countFailed (s : Store) : Nat :=
  (allRecords s).countP (fun r => r.status == Status.failed)

/-- Number of records hitting the warning branch of the loop. -/
def countUntested (s : Store) : Nat :=
  (allRecords s).countP (fun r => r.status == Status.untested)

/-- Floor of a nonnegative rational; the aggregator only formats
nonnegative percentages, where truncating division agrees with floor. -/
def ratFloorNonneg (q : ℚ) : Int := q.num / (q.den : Int)

/-- Round-half-even of a nonnegative rational, modelling the rounding
applied by CPython string formatting. -/
def roundHalfEven (q : ℚ) : Int :=
  let fl := ratFloorNonneg q
  let frac := q - (fl : ℚ)
  if frac < 1 / 2 then fl
  else if 1 / 2 < frac then fl + 1
  else if fl % 2 = 0 then fl else fl + 1

/-- Model of the Python format step that renders a nonnegative number
with one decimal digit.  Exact rational arithmetic stands in for the
binary floating point value being formatted. -/
def format1f (q : ℚ) : String :=
  let n := (roundHalfEven (q * 10)).toNat
  toString (n / 10) ++ "." ++ toString (n % 10)

/-- The results dictionary returned by get_testrun_totals. -/
structure TotalsOut where
  total_testcases : Nat
  passed_testcases : Nat
  failed_testcases : Nat
  passed_percentage : String
  failed_percentage : String
deriving DecidableEq, Repr

/-- TestRunnerUtils.get_testrun_totals: tally passed/failed over every
record (warning for any other status), set total = passed + failed, then
compute both percentages by dividing by the total.  The division is
unconditional in the source, so total = 0 raises ZeroDivisionError,
modelled as none; the warnings emitted before the division are kept in
the first component. -/
def get_testrun_totals (s : Store) : List String × Option TotalsOut :=
  let recs := allRecords s
  let p := countPassed s
  let f := countFailed s
  let warns := (recs.filter (fun r =>
      r.status != Status.passed && r.status != Status.failed)).map
      (fun r => "Unrecognized result status: " ++ r.status.str)
  let t := p + f
  if t = 0 then
    (warns, none)
  else
    (warns, some
      { total_testcases := t
        passed_testcases := p
        failed_testcases := f
        passed_percentage :=
          format1f (((p : ℚ) / (t : ℚ)) * 100) ++ "%"
        failed_percentage :=
          format1f (((f : ℚ) / (t : ℚ)) * 100) ++ "%" })

/-! ### Selenium operations: polling waits, retry, gesture fallback -/

/-- Opaque handle for a resolved web element. -/
abbrev Elem := Nat

/-- A (strategy, selector) pair. -/
abbrev Locator := String × String

/-- Exceptions surfaced by the selenium layer.  noSuchElement and
timeoutExc carry the exception message (none models the bare default
message of a wait created without the message keyword). -/
inductive SelExc where
  | staleElement
  | noSuchElement (message : Option String)
  | timeoutExc (message : Option String)
  | otherExc (tag : Nat)
deriving DecidableEq, Repr

/-- Exception classes that appear in ignored_exceptions lists. -/
inductive ExcClass where
  | staleC
  | noSuchC
deriving DecidableEq, Repr

/-- Whether a raised exception is an instance of an ignored class. -/
def classMatch (e : SelExc) : ExcClass → Bool
  | .staleC => match e with | .staleElement => true | _ => false
  | .noSuchC => match e with | .noSuchElement _ => true | _ => false

/-- Outcome of evaluating a wait predicate at one poll tick: a value
(none / False means not yet satisfied) or a raised exception. -/
inductive PollRes (α : Type) where
  | val (a : Option α)
  | exn (e : SelExc)
deriving DecidableEq, Repr

/-- WebDriverWait.until, polling from tick i with the given remaining
budget: return the first truthy value; swallow exceptions whose class is
in ignored_exceptions and keep polling; propagate any other exception;
on an exhausted budget raise TimeoutException with the configured
message. -/
def waitUntilFrom {α : Type} (pred : Nat → PollRes α) (ignored : List ExcClass)
    (message : Option String) : Nat → Nat → Except SelExc α
  | _, 0 => .error (.timeoutExc message)
  | i, n + 1 =>
    match pred i with
    | .val (some a) => .ok a
    | .val none => waitUntilFrom pred ignored message (i + 1) n
    | .exn e =>
      if ignored.any (classMatch e) then waitUntilFrom pred ignored message (i + 1) n
      else .error e

/-- WebDriverWait.until starting at tick 0; the timeout budget is the
number of poll ticks. -/
def waitUntil {α : Type} (pred : Nat → PollRes α) (ignored : List ExcClass)
    (timeout : Nat) (message : Option String) : Except SelExc α :=
  waitUntilFrom pred ignored message 0 timeout

/-- Diagnostic message of SeleniumOperations.get_element. -/
def getElementMsg (loc : Locator) : String :=
  "Element could not be found using the specified criteria:\nStrategy:" ++
    loc.1 ++ "\nSelector:" ++ loc.2

/-- Diagnostic message of SeleniumOperations.get_elements. -/
def getElementsMsg (loc : Locator) : String :=
  "No matching elements found using the specified criteria:\nStrategy:" ++
    loc.1 ++ "\nSelector:" ++ loc.2

/-- Diagnostic message of SeleniumOperations.wait_for_text_in_elements. -/
def textMsg (loc : Locator) (text : String) : String :=
  "No elements contained the specified text:\n Strategy:" ++ loc.1 ++
    "\n Selector:" ++ loc.2 ++ "\nExpected Text:" ++ text

/-- Diagnostic message of SeleniumOperations.wait_for_element_to_not_be_visible. -/
def invisMsg (loc : Locator) : String :=
  "Element remained visible:\nStrategy:" ++ loc.1 ++ "\nSelector:" ++ loc.2

/-- Diagnostic message of SeleniumOperations.wait_for. -/
def waitForMsg : String := "Method result never matched the expected value"

/-- SeleniumOperations.get_element: wait for presence (ignoring stale
references) with a locator-naming message, then perform a fresh
find_element lookup whose outcome is the finalFind oracle. -/
def get_element (presence : Nat → PollRes Elem) (finalFind : Except SelExc Elem)
    (loc : Locator) (timeout : Nat) : Except SelExc Elem :=
  match waitUntil presence [ExcClass.staleC] timeout (some (getElementMsg loc)) with
  | .error e => .error e
  | .ok _ => finalFind

/-- SeleniumOperations.get_elements: wait for at least one match (no
ignored exceptions) with a locator-naming message, then return the fresh
find_elements result (find_elements never raises). -/
def get_elements (presence : Nat → PollRes (List Elem)) (finalFind : List Elem)
    (loc : Locator) (timeout : Nat) : Except SelExc (List Elem) :=
  match waitUntil presence [] timeout (some (getElementsMsg loc)) with
  | .error e => .error e
  | .ok _ => .ok finalFind

/-- Substring test used to reason about message contents. -/
def containsSub (s pat : String) : Bool :=
  s.data.tails.any (fun t => pat.data.isPrefixOf t)

/-- SeleniumOperations._text_to_be_present_in_elements: read every
matching element and its text; a stale reference raised during the query
is caught and treated as False; any other exception propagates; the
first element whose text contains the needle is returned. -/
def text_to_be_present_in_elements
    (query : Except SelExc (List (Elem × String))) (text : String) : PollRes Elem :=
  match query with
  | .error SelExc.staleElement => .val none
  | .error e => .exn e
  | .ok l => .val ((l.find? (fun p => containsSub p.2 text)).map Prod.fst)

/-- SeleniumOperations.wait_for_text_in_elements: poll the text predicate
(ignoring stale references) with a message naming the locator and the
expected text. -/
def wait_for_text_in_elements (world : Nat → Except SelExc (List (Elem × String)))
    (loc : Locator) (text : String) (timeout : Nat) : Except SelExc Elem :=
  waitUntil (fun i => text_to_be_present_in_elements (world i) text)
    [ExcClass.staleC] timeout (some (textMsg loc text))

/-- SeleniumOperations.wait_for_element_to_not_be_visible: poll the
invisibility condition (no ignored exceptions) with a locator-naming
message. -/
def wait_for_element_to_not_be_visible (invisible : Nat → PollRes Unit)
    (loc : Locator) (timeout : Nat) : Except SelExc Unit :=
  waitUntil invisible [] timeout (some (invisMsg loc))

/-- SeleniumOperations.wait_for: poll until the supplied method returns
the expected value (equality is falsy until then), ignoring stale
references, with a generic message. -/
def wait_for {α : Type} [DecidableEq α] (method : Nat → Except SelExc α)
    (expected : α) (timeout : Nat) : Except SelExc Bool :=
  waitUntil (fun i =>
      match method i with
      | .error e => .exn e
      | .ok v => .val (if v = expected then some true else none))
    [ExcClass.staleC] timeout (some waitForMsg)

/-- SeleniumOperations._bool_click: attempt the click and report success;
the bare except clause turns EVERY raised exception into False. -/
def bool_click (clickRes : Except SelExc Unit) : Bool :=
  match clickRes with
  | .ok _ => true
  | .error _ => false

/-- SeleniumOperations.tap: poll until _bool_click(get_element(locator))
is truthy, with stale and no-such-element exceptions ignored between
attempts.  ge i is the outcome of the nested get_element call at outer
tick i (its own wait included), click i the outcome of the click.  The
wait is created WITHOUT a message keyword, hence the none message. -/
def tap (ge : Nat → Except SelExc Elem) (click : Nat → Except SelExc Unit)
    (timeout : Nat) : Except SelExc Unit :=
  waitUntil (fun i =>
      match ge i with
      | .error e => .exn e
      | .ok _ => .val (if bool_click (click i) then some () else none))
    [ExcClass.staleC, ExcClass.noSuchC] timeout none

/-- Instance test for NoSuchElementException, the only class caught by
try_fetch. -/
def isNoSuch : SelExc → Bool
  | .noSuchElement _ => true
  | _ => false

/-- SeleniumOperations.try_fetch: run the lookup action; convert a
NoSuchElementException into none; return any value unchanged; let every
other exception propagate. -/
def try_fetch {α : Type} (action : Except SelExc α) : Except SelExc (Option α) :=
  match action with
  | .ok v => .ok (some v)
  | .error e => if isNoSuch e then .ok none else .error e

/-- Message of the NoSuchElementException raised when
swipe_until_visible exhausts its attempts; the locator tuple is rendered
the way Python string formatting renders it. -/
def swipeFailMsg (loc : Locator) : String :=
  let q := (Char.ofNat 39).toString
  "Element could not be found using locator (" ++ q ++ loc.1 ++ q ++ ", " ++
    q ++ loc.2 ++ q ++ ") after performing swipe operations"

/-- Loop body of SeleniumOperations.swipe_until_visible, polling from
probe index i with the given remaining attempts; probe i is none when
find_element raises NoSuchElementException on the i-th direct check.
Returns the outcome together with the number of swipe gestures
executed. -/
def swipe_until_visible_from (probe : Nat → Option Elem) (loc : Locator) :
    Nat → Nat → Except SelExc Elem × Nat
  | _, 0 => (.error (.noSuchElement (some (swipeFailMsg loc))), 0)
  | i, n + 1 =>
    match probe i with
    | some el => (.ok el, 0)
    | none =>
      let r := swipe_until_visible_from probe loc (i + 1) n
      (r.1, r.2 + 1)

/-- SeleniumOperations.swipe_until_visible with its attempts budget. -/
def swipe_until_visible (probe : Nat → Option Elem) (loc : Locator)
    (attempts : Nat) : Except SelExc Elem × Nat :=
  swipe_until_visible_from probe loc 0 attempts

/-- WebElementOperations.op_click_element: run the try block (clickable
wait, resolve, click), whose outcome is first; when it raises
StaleElementReferenceException, run the handler (re-resolve and click
once more), whose outcome is second and propagates unchanged; any other
outcome of the try block propagates directly.  The second component
counts the resolve-and-click attempts executed. -/
def op_click_element (first second : Except SelExc Unit) :
    Except SelExc Unit × Nat :=
  match first with
  | .error SelExc.staleElement => (second, 2)
  | r => (r, 1)

/-! ### Lifecycle operation sequences over the ResultStore -/

/-- One lifecycle operation on the reporter state: registration
(register_test_case), inline completion (add_test_case_result, run at
tearDown), or post-run reconciliation (get_results with the runner's
failures and errors lists). -/
inductive Op where
  | register (c m : String) (ids : List Nat) (feature : String)
      (target : TestTarget) (now : Nat)
  | inline (c m : String) (now : Nat) (outcome : Option Bool)
  | reconcile (failures errors : List FailEntry)
deriving DecidableEq, Repr

/-- Apply one operation; none models an uncaught KeyError. -/
def applyOp (st : ReporterState) : Op → Option ReporterState
  | .register c m ids feature target now =>
    some (register_test_case st c m ids feature target now)
  | .inline c m now outcome =>
    (add_test_case_result st.test_results c m now outcome).map
      (fun s2 => { st with test_results := s2 })
  | .reconcile failures errors =>
    (get_results st.test_results failures errors).map
      (fun p => { st with test_results := p.1 })

/-- Run a sequence of operations left to right. -/
def runOps (st : ReporterState) : List Op → Option ReporterState
  | [] => some st
  | op :: rest =>
    match applyOp st op with
    | none => none
    | some st2 => runOps st2 rest

/-- How many times one operation registers the key (c, m). -/
def opRegCount (op : Op) (c m : String) : Nat :=
  match op with
  | .register c2 m2 _ _ _ _ => if c2 = c ∧ m2 = m then 1 else 0
  | _ => 0

/-- How many times one operation completes the key (c, m) inline. -/
def opInlCount (op : Op) (c m : String) : Nat :=
  match op with
  | .inline c2 m2 _ _ => if c2 = c ∧ m2 = m then 1 else 0
  | _ => 0

/-- How many failure/error entries of one operation name the key (c, m). -/
def opEntCount (op : Op) (c m : String) : Nat :=
  match op with
  | .reconcile failures errors =>
    (failures ++ errors).countP (fun e => e.test_class == c && e.test_method == m)
  | _ => 0

/-- Registrations of the key across a sequence. -/
def regCount (ops : List Op) (c m : String) : Nat :=
  (ops.map (fun op => opRegCount op c m)).sum

/-- Inline completions of the key across a sequence. -/
def inlCount (ops : List Op) (c m : String) : Nat :=
  (ops.map (fun op => opInlCount op c m)).sum

/-- Failure/error entries naming the key across a sequence. -/
def entCount (ops : List Op) (c m : String) : Nat :=
  (ops.map (fun op => opEntCount op c m)).sum

/-- Whether the sequence contains a successful inline completion of the
key (the completion that sets status passed). -/
def inlSucc (ops : List Op) (c m : String) : Bool :=
  ops.any (fun op =>
    match op with
    | .inline c2 m2 _ outcome => c2 == c && m2 == m && outcome == some true
    | _ => false)

/-- Whether the operation is a reconciliation. -/
def isReconcile : Op → Bool
  | .reconcile _ _ => true
  | _ => false

/-- Whether the operation is an inline completion. -/
def isInline : Op → Bool
  | .inline _ _ _ _ => true
  | _ => false

/-- No inline completion occurs after reconciliation has begun: the
actual lifecycle runs every tearDown before get_results. -/
def phaseOK : List Op → Bool
  | [] => true
  | op :: rest =>
    if isReconcile op then rest.all (fun o => !isInline o) && phaseOK rest
    else phaseOK rest

/-- Status of the record stored under (c, m), when present. -/
def statusOf (s : Store) (c m : String) : Option Status :=
  (storeFind s c m).map (fun r => r.status)

/-! ### Association-list and record-update lemmas -/

theorem lookupA_setA_self {κ β : Type} [DecidableEq κ] (l : List (κ × β))
    (k : κ) (v : β) : lookupA (setA l k v) k = some v := by
  induction l with
  | nil => simp [setA, lookupA]
  | cons hd tl ih =>
    obtain ⟨k2, v2⟩ := hd
    by_cases h : k2 = k
    · simp [setA, h, lookupA]
    · simp [setA, h, lookupA, ih]

theorem lookupA_setA_ne {κ β : Type} [DecidableEq κ] (l : List (κ × β))
    (k k1 : κ) (v : β) (h : k1 ≠ k) :
    lookupA (setA l k v) k1 = lookupA l k1 := by
  induction l with
  | nil => simp [setA, lookupA, Ne.symm h]
  | cons hd tl ih =>
    obtain ⟨k2, v2⟩ := hd
    by_cases h2 : k2 = k
    · subst h2
      simp [setA, lookupA, Ne.symm h]
    · simp only [setA, if_neg h2]
      by_cases h1 : k2 = k1
      · simp [lookupA, h1]
      · simp [lookupA, h1, ih]

theorem storeFind_some_elim {s : Store} {c m : String} {r : TestRecord}
    (h : storeFind s c m = some r) :
    ∃ inner, lookupA s c = some inner ∧ lookupA inner m = some r := by
  unfold storeFind at h
  cases hc : lookupA s c with
  | none => rw [hc] at h; exact absurd h (by simp)
  | some inner => rw [hc] at h; exact ⟨inner, rfl, h⟩

/-- Workhorse lemma: updating an existing record succeeds, rewrites
exactly that record, and leaves every other key untouched. -/
theorem updateRecord_spec {s : Store} {c m : String} {r : TestRecord}
    (f : TestRecord → TestRecord) (h : storeFind s c m = some r) :
    ∃ s2, updateRecord s c m f = some s2 ∧
      storeFind s2 c m = some (f r) ∧
      ∀ c2 m2, ¬(c2 = c ∧ m2 = m) → storeFind s2 c2 m2 = storeFind s c2 m2 := by
  obtain ⟨inner, hc, hm⟩ := storeFind_some_elim h
  refine ⟨setA s c (setA inner m (f r)), ?_, ?_, ?_⟩
  · simp [updateRecord, hc, hm]
  · simp [storeFind, lookupA_setA_self, lookupA_setA_self]
  · intro c2 m2 hne
    by_cases hcc : c2 = c
    · subst hcc
      have hmm : m2 ≠ m := fun hh => hne ⟨rfl, hh⟩
      simp [storeFind, lookupA_setA_self, lookupA_setA_ne _ _ _ _ hmm, hc]
    · simp [storeFind, lookupA_setA_ne _ _ _ _ hcc]

theorem updateRecord_none_iff {s : Store} {c m : String}
    {f : TestRecord → TestRecord} :
    updateRecord s c m f = none ↔ storeFind s c m = none := by
  cases hc : lookupA s c with
  | none => simp [updateRecord, storeFind, hc]
  | some inner =>
    cases hm : lookupA inner m with
    | none => simp [updateRecord, storeFind, hc, hm]
    | some r => simp [updateRecord, storeFind, hc, hm]

theorem updateRecord_some_elim {s s2 : Store} {c m : String}
    {f : TestRecord → TestRecord} (h : updateRecord s c m f = some s2) :
    ∃ r, storeFind s c m = some r ∧
      storeFind s2 c m = some (f r) ∧
      ∀ c2 m2, ¬(c2 = c ∧ m2 = m) → storeFind s2 c2 m2 = storeFind s c2 m2 := by
  cases hfind : storeFind s c m with
  | none =>
    have hnone := (updateRecord_none_iff (f := f)).mpr hfind
    rw [hnone] at h
    exact absurd h (by simp)
  | some r =>
    obtain ⟨s3, hupd, hself, hothers⟩ := updateRecord_spec f hfind
    rw [hupd] at h
    obtain rfl : s3 = s2 := by injection h
    exact ⟨r, rfl, hself, hothers⟩

/-! ### Registration lemmas -/

theorem add_test_case_find_self (s : Store) (c m : String) (now : Nat)
    (feature : String) (target : TestTarget) :
    storeFind (add_test_case s c m now feature target) c m =
      some (freshRecord now feature target) := by
  unfold add_test_case storeFind
  cases hc : lookupA s c with
  | none => simp [hc, lookupA_setA_self]
  | some inner => simp [hc, lookupA_setA_self]

theorem add_test_case_find_ne (s : Store) (c m c2 m2 : String) (now : Nat)
    (feature : String) (target : TestTarget) (hne : ¬(c2 = c ∧ m2 = m)) :
    storeFind (add_test_case s c m now feature target) c2 m2 =
      storeFind s c2 m2 := by
  by_cases hcc : c2 = c
  · subst hcc
    have hmm : m2 ≠ m := fun hh => hne ⟨rfl, hh⟩
    unfold add_test_case storeFind
    cases hc : lookupA s c2 with
    | none =>
      simp [hc, lookupA_setA_self, lookupA_setA_ne _ _ _ _ hmm, lookupA,
        Ne.symm hmm]
    | some inner =>
      simp [hc, lookupA_setA_self, lookupA_setA_ne _ _ _ _ hmm, Ne.symm hmm]
  · unfold add_test_case storeFind
    cases hc : lookupA s c with
    | none =>
      simp [hc, lookupA_setA_ne _ _ _ _ hcc]
    | some inner =>
      simp [hc, lookupA_setA_ne _ _ _ _ hcc]

theorem register_find_self (st : ReporterState) (c m : String)
    (ids : List Nat) (feature : String) (target : TestTarget) (now : Nat) :
    storeFind (register_test_case st c m ids feature target now).test_results c m =
      some { freshRecord now feature target with test_case_ids := ids } := by
  unfold register_test_case
  obtain ⟨s2, hupd, hself, -⟩ :=
    updateRecord_spec (s := add_test_case st.test_results c m now feature target)
      (fun r => { r with test_case_ids := ids })
      (add_test_case_find_self st.test_results c m now feature target)
  simp only [hupd, Option.getD_some]
  exact hself

theorem register_find_ne (st : ReporterState) (c m c2 m2 : String)
    (ids : List Nat) (feature : String) (target : TestTarget) (now : Nat)
    (hne : ¬(c2 = c ∧ m2 = m)) :
    storeFind (register_test_case st c m ids feature target now).test_results c2 m2 =
      storeFind st.test_results c2 m2 := by
  unfold register_test_case
  obtain ⟨s2, hupd, -, hothers⟩ :=
    updateRecord_spec (s := add_test_case st.test_results c m now feature target)
      (fun r => { r with test_case_ids := ids })
      (add_test_case_find_self st.test_results c m now feature target)
  simp only [hupd, Option.getD_some]
  rw [hothers c2 m2 hne]
  exact add_test_case_find_ne st.test_results c m c2 m2 now feature target hne

/-! ### Reconciliation lemmas -/

/-- Key-matching predicate used when counting failure entries. -/
def entKeyP (c m : String) (e : FailEntry) : Bool :=
  e.test_class == c && e.test_method == m

theorem gfr_step_elim {s : Store} {e : FailEntry} {rest : List FailEntry}
    {res : Store × List String} (hm : e.test_class ≠ errorHolder)
    (h : get_failed_results s (e :: rest) = some res) :
    ∃ s2, updateRecord s e.test_class e.test_method
        (fun r => { r with status := Status.failed, message := e.stack_trace }) = some s2 ∧
      get_failed_results s2 rest = some res := by
  rw [get_failed_results, if_neg hm] at h
  cases hupd : updateRecord s e.test_class e.test_method
      (fun r => { r with status := Status.failed, message := e.stack_trace }) with
  | none => rw [hupd] at h; exact absurd h (by simp)
  | some s2 => rw [hupd] at h; exact ⟨s2, rfl, h⟩

/-- An _ErrorHolder entry at the head of the list: the store is returned
unchanged (no record updated), the severe log line is emitted, and the
remaining entries are skipped. -/
theorem gfr_marker {s : Store} {e : FailEntry} (rest : List FailEntry)
    (hmk : e.test_class = errorHolder) :
    get_failed_results s (e :: rest) =
      some (s, ["SetUp method failure for Class or Test Case: " ++ e.description]) := by
  rw [get_failed_results, if_pos hmk]

theorem gfr_marker_elim {s s2 : Store} {e : FailEntry} {rest : List FailEntry}
    {logs : List String} (hmk : e.test_class = errorHolder)
    (h : get_failed_results s (e :: rest) = some (s2, logs)) :
    s2 = s ∧ logs = ["SetUp method failure for Class or Test Case: " ++ e.description] := by
  rw [gfr_marker rest hmk] at h
  injection h with hh
  injection hh with ha hb
  exact ⟨ha.symm, hb.symm⟩

/-- Processing a list with no entry naming the key leaves that key's
record untouched. -/
theorem gfr_preserve {c m : String} :
    ∀ (entries : List FailEntry) (s s2 : Store) (logs : List String),
      get_failed_results s entries = some (s2, logs) →
      entries.countP (entKeyP c m) = 0 →
      storeFind s2 c m = storeFind s c m := by
  intro entries
  induction entries with
  | nil =>
    intro s s2 logs h _
    simp [get_failed_results] at h
    rw [h.1]
  | cons e rest ih =>
    intro s s2 logs h hcount
    rw [List.countP_cons] at hcount
    have hkey : entKeyP c m e = false := by
      cases hk : entKeyP c m e
      · rfl
      · exfalso; rw [hk] at hcount; simp at hcount
    have hrest : rest.countP (entKeyP c m) = 0 := by
      rw [hkey] at hcount; simpa using hcount
    by_cases hmk : e.test_class = errorHolder
    · obtain ⟨rfl, -⟩ := gfr_marker_elim hmk h
      rfl
    · obtain ⟨sx, hupd, hrec⟩ := gfr_step_elim hmk h
      obtain ⟨r, -, -, hothers⟩ := updateRecord_some_elim hupd
      have hne : ¬(c = e.test_class ∧ m = e.test_method) := by
        rintro ⟨hc, hm2⟩
        have ht : entKeyP c m e = true := by simp [entKeyP, ← hc, ← hm2]
        rw [ht] at hkey
        simp at hkey
      rw [ih sx s2 logs hrec hrest, hothers c m hne]

/-- Any status change made by _get_failed_results sets the status to
failed. -/
theorem gfr_status {c m : String} :
    ∀ (entries : List FailEntry) (s s2 : Store) (logs : List String),
      get_failed_results s entries = some (s2, logs) →
      statusOf s2 c m = statusOf s c m ∨ statusOf s2 c m = some Status.failed := by
  intro entries
  induction entries with
  | nil =>
    intro s s2 logs h
    simp [get_failed_results] at h
    rw [h.1]
    exact Or.inl rfl
  | cons e rest ih =>
    intro s s2 logs h
    by_cases hmk : e.test_class = errorHolder
    · obtain ⟨rfl, -⟩ := gfr_marker_elim hmk h
      exact Or.inl rfl
    · obtain ⟨sx, hupd, hrec⟩ := gfr_step_elim hmk h
      obtain ⟨r, -, hself, hothers⟩ := updateRecord_some_elim hupd
      rcases ih sx s2 logs hrec with hsame | hfail
      · rw [hsame]
        by_cases hkey : c = e.test_class ∧ m = e.test_method
        · right
          obtain ⟨rfl, rfl⟩ := hkey
          simp [statusOf, hself]
        · left
          simp [statusOf, hothers c m hkey]
      · exact Or.inr hfail

/-- A record that ends up failed was either already failed or named by
some entry of the processed list. -/
theorem gfr_failed {c m : String} :
    ∀ (entries : List FailEntry) (s s2 : Store) (logs : List String),
      get_failed_results s entries = some (s2, logs) →
      statusOf s2 c m = some Status.failed →
      statusOf s c m = some Status.failed ∨ 0 < entries.countP (entKeyP c m) := by
  intro entries
  induction entries with
  | nil =>
    intro s s2 logs h hfail
    simp [get_failed_results] at h
    rw [h.1]
    exact Or.inl hfail
  | cons e rest ih =>
    intro s s2 logs h hfail
    by_cases hmk : e.test_class = errorHolder
    · obtain ⟨rfl, -⟩ := gfr_marker_elim hmk h
      exact Or.inl hfail
    · obtain ⟨sx, hupd, hrec⟩ := gfr_step_elim hmk h
      obtain ⟨r, -, hself, hothers⟩ := updateRecord_some_elim hupd
      by_cases hkey : c = e.test_class ∧ m = e.test_method
      · right
        obtain ⟨rfl, rfl⟩ := hkey
        rw [List.countP_cons]
        have he : entKeyP e.test_class e.test_method e = true := by
          simp [entKeyP]
        rw [he]
        simp
      · rcases ih sx s2 logs hrec hfail with hsx | hcnt
        · left
          have heq := hothers c m hkey
          simp only [statusOf] at hsx ⊢
          rw [← heq]
          exact hsx
        · right
          rw [List.countP_cons]
          omega

/-- Records never come into existence during reconciliation. -/
theorem gfr_exists_back {c m : String} :
    ∀ (entries : List FailEntry) (s s2 : Store) (logs : List String),
      get_failed_results s entries = some (s2, logs) →
      storeFind s2 c m ≠ none → storeFind s c m ≠ none := by
  intro entries
  induction entries with
  | nil =>
    intro s s2 logs h hne
    simp [get_failed_results] at h
    rw [h.1]
    exact hne
  | cons e rest ih =>
    intro s s2 logs h hne
    by_cases hmk : e.test_class = errorHolder
    · obtain ⟨rfl, -⟩ := gfr_marker_elim hmk h
      exact hne
    · obtain ⟨sx, hupd, hrec⟩ := gfr_step_elim hmk h
      obtain ⟨r, hr, hself, hothers⟩ := updateRecord_some_elim hupd
      have hx := ih sx s2 logs hrec hne
      by_cases hkey : c = e.test_class ∧ m = e.test_method
      · obtain ⟨rfl, rfl⟩ := hkey
        simp [hr]
      · rw [hothers c m hkey] at hx
        exact hx

theorem get_results_elim {s s2 : Store} {failures errors : List FailEntry}
    {logs : List String} (h : get_results s failures errors = some (s2, logs)) :
    ∃ sa la lb, get_failed_results s failures = some (sa, la) ∧
      get_failed_results sa errors = some (s2, lb) ∧ logs = la ++ lb := by
  cases h1 : get_failed_results s failures with
  | none => simp [get_results, h1] at h
  | some pa =>
    obtain ⟨sa, la⟩ := pa
    cases h2 : get_failed_results sa errors with
    | none => simp [get_results, h1, h2] at h
    | some pb =>
      obtain ⟨sb, lb⟩ := pb
      simp only [get_results, h1, h2] at h
      injection h with hh
      injection hh with ha hb
      exact ⟨sa, la, lb, rfl, by rw [ha] at h2; exact h2, hb.symm⟩

theorem get_results_preserve {c m : String} {s s2 : Store}
    {failures errors : List FailEntry} {logs : List String}
    (h : get_results s failures errors = some (s2, logs))
    (hcount : (failures ++ errors).countP (entKeyP c m) = 0) :
    storeFind s2 c m = storeFind s c m := by
  obtain ⟨sa, la, lb, h1, h2, -⟩ := get_results_elim h
  rw [List.countP_append] at hcount
  rw [gfr_preserve errors sa s2 lb h2 (by omega),
    gfr_preserve failures s sa la h1 (by omega)]

theorem get_results_status {c m : String} {s s2 : Store}
    {failures errors : List FailEntry} {logs : List String}
    (h : get_results s failures errors = some (s2, logs)) :
    statusOf s2 c m = statusOf s c m ∨ statusOf s2 c m = some Status.failed := by
  obtain ⟨sa, la, lb, h1, h2, -⟩ := get_results_elim h
  rcases gfr_status errors sa s2 lb h2 with hb | hb
  · rcases gfr_status failures s sa la h1 with ha | ha
    · exact Or.inl (hb.trans ha)
    · exact Or.inr (hb.trans ha)
  · exact Or.inr hb

theorem get_results_failed {c m : String} {s s2 : Store}
    {failures errors : List FailEntry} {logs : List String}
    (h : get_results s failures errors = some (s2, logs))
    (hfail : statusOf s2 c m = some Status.failed) :
    statusOf s c m = some Status.failed ∨
      0 < (failures ++ errors).countP (entKeyP c m) := by
  obtain ⟨sa, la, lb, h1, h2, -⟩ := get_results_elim h
  rw [List.countP_append]
  rcases gfr_failed errors sa s2 lb h2 hfail with hb | hb
  · rcases gfr_failed failures s sa la h1 hb with ha | ha
    · exact Or.inl ha
    · exact Or.inr (by omega)
  · exact Or.inr (by omega)

theorem get_results_exists_back {c m : String} {s s2 : Store}
    {failures errors : List FailEntry} {logs : List String}
    (h : get_results s failures errors = some (s2, logs))
    (hne : storeFind s2 c m ≠ none) : storeFind s c m ≠ none := by
  obtain ⟨sa, la, lb, h1, h2, -⟩ := get_results_elim h
  exact gfr_exists_back failures s sa la h1
    (gfr_exists_back errors sa s2 lb h2 hne)

/-! ### Counting lemmas over operation sequences -/

theorem regCount_append (l1 l2 : List Op) (c m : String) :
    regCount (l1 ++ l2) c m = regCount l1 c m + regCount l2 c m := by
  simp [regCount]

theorem inlCount_append (l1 l2 : List Op) (c m : String) :
    inlCount (l1 ++ l2) c m = inlCount l1 c m + inlCount l2 c m := by
  simp [inlCount]

theorem entCount_append (l1 l2 : List Op) (c m : String) :
    entCount (l1 ++ l2) c m = entCount l1 c m + entCount l2 c m := by
  simp [entCount]

theorem inlSucc_append (l1 l2 : List Op) (c m : String) :
    inlSucc (l1 ++ l2) c m = (inlSucc l1 c m || inlSucc l2 c m) := by
  simp [inlSucc, List.any_append]

theorem sum_map_pos {α : Type} (f : α → Nat) (l : List α) (a : α)
    (ha : a ∈ l) (hf : 0 < f a) : 0 < (l.map f).sum := by
  induction l with
  | nil => cases ha
  | cons hd tl ih =>
    rcases List.mem_cons.mp ha with rfl | hmem
    · simp; omega
    · have := ih hmem
      simp at this ⊢
      omega

theorem pos_sum_mem {α : Type} (f : α → Nat) (l : List α)
    (h : 0 < (l.map f).sum) : ∃ a ∈ l, 0 < f a := by
  induction l with
  | nil => simp at h
  | cons hd tl ih =>
    by_cases hh : 0 < f hd
    · exact ⟨hd, List.mem_cons_self hd tl, hh⟩
    · have hz : f hd = 0 := by omega
      simp [hz] at h
      obtain ⟨a, hmem, hfa⟩ := ih (by simpa using h)
      exact ⟨a, List.mem_cons_of_mem hd hmem, hfa⟩

theorem inlSucc_pos_inlCount (l : List Op) (c m : String)
    (h : inlSucc l c m = true) : 0 < inlCount l c m := by
  rw [inlSucc, List.any_eq_true] at h
  obtain ⟨op, hmem, hp⟩ := h
  apply sum_map_pos _ _ op hmem
  cases op with
  | inline c2 m2 now oc =>
    simp at hp
    obtain ⟨⟨hc, hm⟩, -⟩ := hp
    simp [opInlCount, hc, hm]
  | register c2 m2 ids f tg now => simp at hp
  | reconcile fs es => simp at hp

theorem entCount_pos_reconcile (l : List Op) (c m : String)
    (h : 0 < entCount l c m) : l.any isReconcile = true := by
  obtain ⟨op, hmem, hop⟩ := pos_sum_mem _ _ h
  rw [List.any_eq_true]
  refine ⟨op, hmem, ?_⟩
  cases op with
  | reconcile fs es => rfl
  | register c2 m2 ids f tg now => simp [opEntCount] at hop
  | inline c2 m2 now oc => simp [opEntCount] at hop

theorem phase_no_inline :
    ∀ (l1 l2 : List Op), phaseOK (l1 ++ l2) = true →
      l1.any isReconcile = true → ∀ op ∈ l2, isInline op = false := by
  intro l1
  induction l1 with
  | nil => intro l2 _ hany; simp at hany
  | cons hd tl ih =>
    intro l2 hphase hany op hmem
    rw [List.cons_append, phaseOK] at hphase
    by_cases hr : isReconcile hd
    · rw [if_pos hr, Bool.and_eq_true, List.all_eq_true] at hphase
      have := hphase.1 op (List.mem_append_right tl hmem)
      simpa using this
    · rw [if_neg hr] at hphase
      rcases List.any_eq_true.mp hany with ⟨op2, hmem2, hop2⟩
      rcases List.mem_cons.mp hmem2 with rfl | hmem2
      · exact absurd hop2 hr
      · exact ih l2 hphase (List.any_eq_true.mpr ⟨op2, hmem2, hop2⟩) op hmem

theorem phaseOK_tail {op : Op} {rest : List Op}
    (h : phaseOK (op :: rest) = true) : phaseOK rest = true := by
  rw [phaseOK] at h
  by_cases hr : isReconcile op
  · rw [if_pos hr, Bool.and_eq_true] at h
    exact h.2
  · rwa [if_neg hr] at h

/-! ### Run-level lemmas -/

theorem applyOp_inline_elim {st stA : ReporterState} {c m : String}
    {now : Nat} {outcome : Option Bool}
    (h : applyOp st (Op.inline c m now outcome) = some stA) :
    ∃ r, storeFind st.test_results c m = some r ∧
      stA.external_case_ids = st.external_case_ids ∧
      storeFind stA.test_results c m = some
        { r with
          end_time := some now
          duration := some ((now : Int) - (r.start_time : Int))
          status := if outcome = some true then Status.passed else r.status } ∧
      ∀ c2 m2, ¬(c2 = c ∧ m2 = m) →
        storeFind stA.test_results c2 m2 = storeFind st.test_results c2 m2 := by
  simp only [applyOp] at h
  cases hupd : add_test_case_result st.test_results c m now outcome with
  | none => rw [hupd] at h; exact absurd h (by simp)
  | some s2 =>
    rw [hupd] at h
    injection h with hh
    obtain ⟨r, hr, hself, hothers⟩ := updateRecord_some_elim hupd
    refine ⟨r, hr, ?_, ?_, ?_⟩
    · rw [← hh]
    · rw [← hh]; exact hself
    · intro c2 m2 hne
      rw [← hh]
      exact hothers c2 m2 hne

theorem applyOp_reconcile_elim {st stA : ReporterState}
    {failures errors : List FailEntry}
    (h : applyOp st (Op.reconcile failures errors) = some stA) :
    ∃ logs, get_results st.test_results failures errors =
        some (stA.test_results, logs) ∧
      stA.external_case_ids = st.external_case_ids := by
  simp only [applyOp] at h
  cases hgr : get_results st.test_results failures errors with
  | none => rw [hgr] at h; exact absurd h (by simp)
  | some p =>
    obtain ⟨s2, logs⟩ := p
    rw [hgr] at h
    injection h with hh
    exact ⟨logs, by rw [← hh], by rw [← hh]⟩

theorem runOps_snoc {st st1 stA : ReporterState} {l : List Op} {op : Op}
    (h1 : runOps st l = some st1) (h2 : applyOp st1 op = some stA) :
    runOps st (l ++ [op]) = some stA := by
  induction l generalizing st with
  | nil =>
    simp only [runOps] at h1
    injection h1 with hh
    subst hh
    simp [runOps, h2]
  | cons hd tl ih =>
    rw [List.cons_append, runOps]
    rw [runOps] at h1
    cases ha : applyOp st hd with
    | none => rw [ha] at h1; exact absurd h1 (by simp)
    | some stB =>
      rw [ha] at h1
      exact ih h1

theorem runOps_cons_elim {st st2 : ReporterState} {op : Op} {rest : List Op}
    (h : runOps st (op :: rest) = some st2) :
    ∃ stA, applyOp st op = some stA ∧ runOps stA rest = some st2 := by
  rw [runOps] at h
  cases ha : applyOp st op with
  | none => rw [ha] at h; exact absurd h (by simp)
  | some stA => rw [ha] at h; exact ⟨stA, rfl, h⟩

/-- A single operation that neither registers, completes, nor names the
key leaves its record untouched. -/
theorem applyOp_preserve {st stA : ReporterState} {op : Op} {c m : String}
    (h : applyOp st op = some stA)
    (hreg : opRegCount op c m = 0) (hinl : opInlCount op c m = 0)
    (hent : opEntCount op c m = 0) :
    storeFind stA.test_results c m = storeFind st.test_results c m := by
  cases op with
  | register c2 m2 ids f tg now =>
    have hne : ¬(c = c2 ∧ m = m2) := by
      rintro ⟨rfl, rfl⟩
      simp [opRegCount] at hreg
    simp only [applyOp] at h
    injection h with hh
    rw [← hh]
    exact register_find_ne st c2 m2 c m ids f tg now hne
  | inline c2 m2 now oc =>
    have hne : ¬(c = c2 ∧ m = m2) := by
      rintro ⟨rfl, rfl⟩
      simp [opInlCount] at hinl
    obtain ⟨r, -, -, -, hothers⟩ := applyOp_inline_elim h
    exact hothers c m hne
  | reconcile failures errors =>
    obtain ⟨logs, hgr, -⟩ := applyOp_reconcile_elim h
    have hcnt : (failures ++ errors).countP (entKeyP c m) = 0 := by
      simpa only [opEntCount] using hent
    exact get_results_preserve hgr hcnt

/-- A record exists only below a registration: running a sequence from a
state where the key is absent can only produce the record through a
register operation in the sequence. -/
theorem run_exists {c m : String} :
    ∀ (l : List Op) (st st2 : ReporterState),
      runOps st l = some st2 →
      storeFind st2.test_results c m ≠ none →
      storeFind st.test_results c m ≠ none ∨ 0 < regCount l c m := by
  intro l
  induction l with
  | nil =>
    intro st st2 h hne
    simp only [runOps] at h
    injection h with hh
    subst hh
    exact Or.inl hne
  | cons op rest ih =>
    intro st st2 h hne
    obtain ⟨stA, ha, hrest⟩ := runOps_cons_elim h
    rcases ih stA st2 hrest hne with hA | hcnt
    · cases op with
      | register c2 m2 ids f tg now =>
        by_cases hkey : c = c2 ∧ m = m2
        · right
          obtain ⟨rfl, rfl⟩ := hkey
          have : opRegCount (Op.register c m ids f tg now) c m = 1 := by
            simp [opRegCount]
          simp [regCount, this]
        · left
          simp only [applyOp] at ha
          injection ha with hh
          rw [← hh] at hA
          rwa [register_find_ne st c2 m2 c m ids f tg now hkey] at hA
      | inline c2 m2 now oc =>
        left
        obtain ⟨r, hr, -, hself, hothers⟩ := applyOp_inline_elim ha
        by_cases hkey : c = c2 ∧ m = m2
        · obtain ⟨rfl, rfl⟩ := hkey
          simp [hr]
        · rwa [hothers c m hkey] at hA
      | reconcile failures errors =>
        left
        obtain ⟨logs, hgr, -⟩ := applyOp_reconcile_elim ha
        exact get_results_exists_back hgr hA
    · right
      rw [show (op :: rest : List Op) = [op] ++ rest from rfl,
        regCount_append]
      omega

/-- A record can only hold status passed below a successful inline
completion: registration resets to untested and reconciliation writes
only failed. -/
theorem run_passed {c m : String} :
    ∀ (l : List Op) (st st2 : ReporterState),
      runOps st l = some st2 →
      statusOf st2.test_results c m = some Status.passed →
      statusOf st.test_results c m = some Status.passed ∨ inlSucc l c m = true := by
  intro l
  induction l with
  | nil =>
    intro st st2 h hp
    simp only [runOps] at h
    injection h with hh
    subst hh
    exact Or.inl hp
  | cons op rest ih =>
    intro st st2 h hp
    obtain ⟨stA, ha, hrest⟩ := runOps_cons_elim h
    have hsucc_tail : inlSucc rest c m = true → inlSucc (op :: rest) c m = true := by
      intro hx
      rw [show (op :: rest : List Op) = [op] ++ rest from rfl, inlSucc_append, hx]
      simp
    rcases ih stA st2 hrest hp with hA | htail
    · cases op with
      | register c2 m2 ids f tg now =>
        simp only [applyOp] at ha
        injection ha with hh
        rw [← hh] at hA
        by_cases hkey : c = c2 ∧ m = m2
        · exfalso
          obtain ⟨rfl, rfl⟩ := hkey
          rw [statusOf, register_find_self st c m ids f tg now] at hA
          simp [freshRecord] at hA
        · left
          rwa [statusOf, register_find_ne st c2 m2 c m ids f tg now hkey] at hA
      | inline c2 m2 now oc =>
        obtain ⟨r, hr, -, hself, hothers⟩ := applyOp_inline_elim ha
        by_cases hkey : c = c2 ∧ m = m2
        · obtain ⟨rfl, rfl⟩ := hkey
          by_cases hoc : oc = some true
          · right
            rw [inlSucc, List.any_cons]
            simp [hoc]
          · left
            rw [statusOf, hself, if_neg hoc] at hA
            rw [statusOf, hr]
            simpa using hA
        · left
          rwa [statusOf, hothers c m hkey] at hA
      | reconcile failures errors =>
        left
        obtain ⟨logs, hgr, -⟩ := applyOp_reconcile_elim ha
        rcases get_results_status hgr with hsame | hfailed
        · rwa [← hsame]
        · rw [hA] at hfailed
          exact absurd (Option.some.inj hfailed) (by simp)
    · exact Or.inr (hsucc_tail htail)

/-- A record can only hold status failed below a reconciliation entry
naming it. -/
theorem run_failed {c m : String} :
    ∀ (l : List Op) (st st2 : ReporterState),
      runOps st l = some st2 →
      statusOf st2.test_results c m = some Status.failed →
      statusOf st.test_results c m = some Status.failed ∨ 0 < entCount l c m := by
  intro l
  induction l with
  | nil =>
    intro st st2 h hp
    simp only [runOps] at h
    injection h with hh
    subst hh
    exact Or.inl hp
  | cons op rest ih =>
    intro st st2 h hp
    obtain ⟨stA, ha, hrest⟩ := runOps_cons_elim h
    have hcnt_tail : 0 < entCount rest c m → 0 < entCount (op :: rest) c m := by
      intro hx
      rw [show (op :: rest : List Op) = [op] ++ rest from rfl, entCount_append]
      omega
    rcases ih stA st2 hrest hp with hA | htail
    · cases op with
      | register c2 m2 ids f tg now =>
        simp only [applyOp] at ha
        injection ha with hh
        rw [← hh] at hA
        by_cases hkey : c = c2 ∧ m = m2
        · exfalso
          obtain ⟨rfl, rfl⟩ := hkey
          rw [statusOf, register_find_self st c m ids f tg now] at hA
          simp [freshRecord] at hA
        · left
          rwa [statusOf, register_find_ne st c2 m2 c m ids f tg now hkey] at hA
      | inline c2 m2 now oc =>
        obtain ⟨r, hr, -, hself, hothers⟩ := applyOp_inline_elim ha
        by_cases hkey : c = c2 ∧ m = m2
        · obtain ⟨rfl, rfl⟩ := hkey
          left
          rw [statusOf, hself] at hA
          by_cases hoc : oc = some true
          · rw [if_pos hoc] at hA
            exact absurd (Option.some.inj hA) (by simp)
          · rw [if_neg hoc] at hA
            rw [statusOf, hr]
            simpa using hA
        · left
          rwa [statusOf, hothers c m hkey] at hA
      | reconcile failures errors =>
        obtain ⟨logs, hgr, -⟩ := applyOp_reconcile_elim ha
        rcases get_results_failed hgr hA with hsame | hcount
        · exact Or.inl hsame
        · right
          have hop : opEntCount (Op.reconcile failures errors) c m =
              (failures ++ errors).countP (entKeyP c m) := rfl
          simp only [entCount, List.map_cons, List.sum_cons, hop]
          omega
    · exact Or.inr (hcnt_tail htail)

theorem regCount_cons (op : Op) (rest : List Op) (c m : String) :
    regCount (op :: rest) c m = opRegCount op c m + regCount rest c m := by
  simp [regCount]

theorem inlCount_cons (op : Op) (rest : List Op) (c m : String) :
    inlCount (op :: rest) c m = opInlCount op c m + inlCount rest c m := by
  simp [inlCount]

theorem entCount_cons (op : Op) (rest : List Op) (c m : String) :
    entCount (op :: rest) c m = opEntCount op c m + entCount rest c m := by
  simp [entCount]

theorem opInlCount_eq_zero_of_not_inline {op : Op} (c m : String)
    (h : isInline op = false) : opInlCount op c m = 0 := by
  cases op with
  | inline c2 m2 now oc => simp [isInline] at h
  | register c2 m2 ids f tg now => rfl
  | reconcile fs es => rfl

/-- Core induction for the lifecycle-exclusivity claim: under a
single-pass discipline on the key, a record that has reached a terminal
status is never mutated again. -/
theorem terminal_frozen_aux (ops : List Op) (c m : String)
    (hregT : regCount ops c m ≤ 1)
    (hinlT : inlCount ops c m ≤ 1)
    (hentT : entCount ops c m ≤ 1)
    (hconf : inlSucc ops c m = true → entCount ops c m = 0)
    (hphase : phaseOK ops = true) :
    ∀ (l2 l1 : List Op) (st1 st2 : ReporterState) (r : TestRecord),
      ops = l1 ++ l2 →
      runOps initState l1 = some st1 →
      runOps st1 l2 = some st2 →
      storeFind st1.test_results c m = some r →
      r.status ≠ Status.untested →
      storeFind st2.test_results c m = some r := by
  intro l2
  induction l2 with
  | nil =>
    intro l1 st1 st2 r hsplit h1 h2 hfind hterm
    simp only [runOps] at h2
    injection h2 with hh
    subst hh
    exact hfind
  | cons op rest ih =>
    intro l1 st1 st2 r hsplit h1 h2 hfind hterm
    obtain ⟨stA, ha, hrest⟩ := runOps_cons_elim h2
    have hex : storeFind st1.test_results c m ≠ none := by rw [hfind]; simp
    have hreg1 : 0 < regCount l1 c m := by
      rcases run_exists l1 initState st1 h1 hex with hinit | hpos
      · exact absurd rfl hinit
      · exact hpos
    have hregsplit : regCount ops c m =
        regCount l1 c m + (opRegCount op c m + regCount rest c m) := by
      rw [hsplit, regCount_append, regCount_cons]
    have hopreg : opRegCount op c m = 0 := by omega
    have hentsplit : entCount ops c m =
        entCount l1 c m + (opEntCount op c m + entCount rest c m) := by
      rw [hsplit, entCount_append, entCount_cons]
    have hinlsplit : inlCount ops c m =
        inlCount l1 c m + (opInlCount op c m + inlCount rest c m) := by
      rw [hsplit, inlCount_append, inlCount_cons]
    have hstep : storeFind stA.test_results c m = some r := by
      cases hs : r.status with
      | untested => exact absurd hs hterm
      | passed =>
        have hstat1 : statusOf st1.test_results c m = some Status.passed := by
          simp [statusOf, hfind, hs]
        have hsucc1 : inlSucc l1 c m = true := by
          rcases run_passed l1 initState st1 h1 hstat1 with hinit | hsucc
          · exact absurd hinit (by simp [statusOf, initState, storeFind, lookupA])
          · exact hsucc
        have hsuccops : inlSucc ops c m = true := by
          rw [hsplit, inlSucc_append, hsucc1]
          simp
        have hent0 : entCount ops c m = 0 := hconf hsuccops
        have hopent : opEntCount op c m = 0 := by omega
        have hinl1 : 0 < inlCount l1 c m := inlSucc_pos_inlCount l1 c m hsucc1
        have hopinl : opInlCount op c m = 0 := by omega
        rw [applyOp_preserve ha hopreg hopinl hopent]
        exact hfind
      | failed =>
        have hstat1 : statusOf st1.test_results c m = some Status.failed := by
          simp [statusOf, hfind, hs]
        have hent1 : 0 < entCount l1 c m := by
          rcases run_failed l1 initState st1 h1 hstat1 with hinit | hpos
          · exact absurd hinit (by simp [statusOf, initState, storeFind, lookupA])
          · exact hpos
        have hopent : opEntCount op c m = 0 := by omega
        have hanyrec : l1.any isReconcile = true :=
          entCount_pos_reconcile l1 c m hent1
        have hnoinline := phase_no_inline l1 (op :: rest)
          (by rw [← hsplit]; exact hphase) hanyrec op (List.mem_cons_self op rest)
        have hopinl : opInlCount op c m = 0 :=
          opInlCount_eq_zero_of_not_inline c m hnoinline
        rw [applyOp_preserve ha hopreg hopinl hopent]
        exact hfind
    exact ih (l1 ++ [op]) stA st2 r
      (by rw [hsplit]; simp) (runOps_snoc h1 ha) hrest hstep hterm

/-! ### Polling lemmas -/

/-- A predicate that is never satisfied makes the wait time out with the
configured message. -/
theorem waitUntilFrom_never {α : Type} (pred : Nat → PollRes α)
    (ignored : List ExcClass) (message : Option String)
    (h : ∀ i, pred i = PollRes.val none) :
    ∀ (n i : Nat), waitUntilFrom pred ignored message i n =
      .error (.timeoutExc message) := by
  intro n
  induction n with
  | zero => intro i; rfl
  | succ k ih =>
    intro i
    rw [waitUntilFrom, h i]
    exact ih (i + 1)

theorem waitUntil_never {α : Type} (pred : Nat → PollRes α)
    (ignored : List ExcClass) (timeout : Nat) (message : Option String)
    (h : ∀ i, pred i = PollRes.val none) :
    waitUntil pred ignored timeout message = .error (.timeoutExc message) :=
  waitUntilFrom_never pred ignored message h timeout 0

/-- A never-found probe makes the gesture loop execute one swipe per
attempt and fail with the locator-naming message. -/
theorem swipe_never_found (probe : Nat → Option Elem) (loc : Locator)
    (h : ∀ i, probe i = none) :
    ∀ (n i : Nat), swipe_until_visible_from probe loc i n =
      (.error (.noSuchElement (some (swipeFailMsg loc))), n) := by
  intro n
  induction n with
  | zero => intro i; rfl
  | succ k ih =>
    intro i
    rw [swipe_until_visible_from, h i]
    simp only [ih (i + 1)]

/-- An entry preceded only by non-marker entries, not named again later
in its list, ends up recorded as failed with its diagnostic text. -/
theorem gfr_sets_failed (e : FailEntry) (hmk : e.test_class ≠ errorHolder) :
    ∀ (pre : List FailEntry) (s s2 : Store) (post : List FailEntry)
      (logs : List String),
      (∀ x ∈ pre, x.test_class ≠ errorHolder) →
      post.countP (entKeyP e.test_class e.test_method) = 0 →
      get_failed_results s (pre ++ e :: post) = some (s2, logs) →
      ∃ r, storeFind s2 e.test_class e.test_method = some r ∧
        r.status = Status.failed ∧ r.message = e.stack_trace := by
  intro pre
  induction pre with
  | nil =>
    intro s s2 post logs _ hcount h
    rw [List.nil_append] at h
    obtain ⟨sx, hupd, hrec⟩ := gfr_step_elim hmk h
    obtain ⟨r0, -, hself, -⟩ := updateRecord_some_elim hupd
    have hfind2 : storeFind s2 e.test_class e.test_method =
        some { r0 with status := Status.failed, message := e.stack_trace } := by
      rw [gfr_preserve post sx s2 logs hrec hcount]
      exact hself
    exact ⟨_, hfind2, rfl, rfl⟩
  | cons x pre2 ih =>
    intro s s2 post logs hpre hcount h
    rw [List.cons_append] at h
    have hx : x.test_class ≠ errorHolder := hpre x (List.mem_cons_self x pre2)
    obtain ⟨sx, -, hrec⟩ := gfr_step_elim hx h
    exact ih sx s2 post logs
      (fun y hy => hpre y (List.mem_cons_of_mem x hy)) hcount hrec

/-! ### Concrete runs used as counterexamples and witnesses -/

/-- Registration of SuiteA.test_login at tick 0. -/
def c3Register : Op := Op.register "SuiteA" "test_login" [] "auth" TestTarget.UI 0

/-- Inline completion at tick 5 with a successful outcome. -/
def c3Inline : Op := Op.inline "SuiteA" "test_login" 5 (some true)

/-- The runner reports SuiteA.test_login among the failures. -/
def c3Entry : FailEntry :=
  { test_class := "SuiteA", test_method := "test_login",
    description := "", stack_trace := "AssertionError: x != y" }

/-- Reconciliation fed the failure entry for SuiteA.test_login. -/
def c3Reconcile : Op := Op.reconcile [c3Entry] []

/-- The record after registration and successful inline completion. -/
def c3PassedRecord : TestRecord :=
  { status := Status.passed, start_time := 0, end_time := some 5,
    duration := some 5, test_case_ids := [], message := "",
    feature_name := "auth", test_target := TestTarget.UI }

/-- Reporter state after registration and inline completion. -/
def c3MidState : ReporterState :=
  { test_results := [("SuiteA", [("test_login", c3PassedRecord)])],
    external_case_ids := [] }

/-- Reporter state after reconciliation overwrote the passed record. -/
def c3EndState : ReporterState :=
  { test_results := [("SuiteA",
      [("test_login",
        { c3PassedRecord with
          status := Status.failed, message := "AssertionError: x != y" })])],
    external_case_ids := [] }

/-- A unittest _ErrorHolder entry as produced by a setUp failure. -/
def demoMarker : FailEntry :=
  { test_class := "_ErrorHolder", test_method := "m",
    description := "setUpClass (SuiteA)", stack_trace := "tb" }

/-- A store holding one freshly registered (untested) record. -/
def c2Store : Store :=
  [("SuiteA", [("test_login", freshRecord 0 "auth" TestTarget.UI)])]

/-- The store once reconciliation has marked the record failed. -/
def c2FailedStore : Store :=
  [("SuiteA",
    [("test_login",
      { freshRecord 0 "auth" TestTarget.UI with
        status := Status.failed, message := "AssertionError: x != y" })])]

/-- Store with one record each of status passed, failed and untested. -/
def c9Store : Store :=
  [("SuiteC",
    [("test_a", { freshRecord 0 "x" TestTarget.UI with status := Status.passed }),
     ("test_b", { freshRecord 0 "x" TestTarget.UI with status := Status.failed }),
     ("test_c", freshRecord 0 "x" TestTarget.UI)])]

/-- Store used by the inline-completion witness. -/
def c7Store : Store := [("S", [("t", freshRecord 2 "f" TestTarget.API)])]

/-! ### Claims -/

/-- C1: the claim says a store with no terminal records yields totals
with both percentages equal to 0.0% and no division-by-zero failure.
The source divides by total_testcases unconditionally, so the empty
store makes get_testrun_totals raise ZeroDivisionError (modelled as
none) instead of returning the initialised 0.0% defaults. -/
theorem c1_empty_run_division_by_zero : get_testrun_totals [] = ([], none) := rfl

/-- C2 counterexample: an entry for an existing record that sits after a
setup-failure marker in the same list is never processed — the marker
makes _get_failed_results return, so the record stays untested with an
empty message, contrary to the claim that position does not matter. -/
theorem c2_counterexample_marker_blocks_rest :
    get_results c2Store [demoMarker, c3Entry] [] =
      some (c2Store,
        ["SetUp method failure for Class or Test Case: " ++ demoMarker.description]) ∧
    statusOf c2Store "SuiteA" "test_login" = some Status.untested := by
  exact ⟨rfl, rfl⟩

/-- C2 (amended): for every failure/error entry preceded only by
non-marker entries in its list, whose class is not the marker, whose key
is not named again later in the list, and whose record update succeeds,
reconciliation sets that record to status failed with the diagnostic
text; a marker entry updates no record, emits the severe log line, and
skips every remaining entry of its list (so the original position-
independence only holds up to the first marker of each list). -/
theorem c2_reconciliation_spec :
    (∀ (e : FailEntry) (pre : List FailEntry) (s s2 : Store)
       (post : List FailEntry) (logs : List String),
      e.test_class ≠ errorHolder →
      (∀ x ∈ pre, x.test_class ≠ errorHolder) →
      post.countP (entKeyP e.test_class e.test_method) = 0 →
      get_failed_results s (pre ++ e :: post) = some (s2, logs) →
      ∃ r, storeFind s2 e.test_class e.test_method = some r ∧
        r.status = Status.failed ∧ r.message = e.stack_trace) ∧
    (∀ (s : Store) (e : FailEntry) (rest : List FailEntry),
      e.test_class = errorHolder →
      get_failed_results s (e :: rest) =
        some (s, ["SetUp method failure for Class or Test Case: " ++ e.description])) :=
  ⟨fun e pre s s2 post logs hmk hpre hcount h =>
    gfr_sets_failed e hmk pre s s2 post logs hpre hcount h,
   fun _ _e rest hmk => gfr_marker rest hmk⟩

/-- C2 witness: a processed entry really marks its record failed, and a
marker at the head really leaves the store untouched. -/
theorem c2_witness :
    (∃ r, storeFind c2FailedStore "SuiteA" "test_login" = some r ∧
      r.status = Status.failed ∧ r.message = c3Entry.stack_trace) ∧
    get_failed_results c2Store [demoMarker] =
      some (c2Store,
        ["SetUp method failure for Class or Test Case: " ++ demoMarker.description]) :=
  ⟨c2_reconciliation_spec.1 c3Entry [] c2Store c2FailedStore [] []
      (by decide) (by simp) (by decide) rfl,
   c2_reconciliation_spec.2 c2Store demoMarker [] rfl⟩

/-- C3 counterexample: registration, successful inline completion, then
a reconciliation naming the same test: the record reaches the terminal
status passed and is later mutated to failed, so under unrestricted
operation sequences a terminal status is not frozen. -/
theorem c3_counterexample_passed_overwritten :
    runOps initState [c3Register, c3Inline] = some c3MidState ∧
    statusOf c3MidState.test_results "SuiteA" "test_login" = some Status.passed ∧
    runOps c3MidState [c3Reconcile] = some c3EndState ∧
    statusOf c3EndState.test_results "SuiteA" "test_login" = some Status.failed := by
  exact ⟨rfl, rfl, rfl, rfl⟩

/-- C3 (amended): in runs where the record's key is registered at most
once, completed inline at most once, named at most once across all
reconciliation entries, never both completed successfully inline and
named in those entries, and where no inline completion occurs after a
reconciliation, a record that has reached a terminal status (passed or
failed) is never mutated again — so its status moves only
untested→passed or untested→failed and the terminal states are mutually
exclusive.  (The counterexample shows the claim fails without these
restrictions: reconciliation overwrites a passed record to failed.) -/
theorem c3_lifecycle_terminal_frozen (ops l1 l2 : List Op) (c m : String)
    (st1 st2 : ReporterState) (r : TestRecord)
    (hsplit : ops = l1 ++ l2)
    (hreg : regCount ops c m ≤ 1)
    (hinl : inlCount ops c m ≤ 1)
    (hent : entCount ops c m ≤ 1)
    (hconf : inlSucc ops c m = true → entCount ops c m = 0)
    (hphase : phaseOK ops = true)
    (h1 : runOps initState l1 = some st1)
    (h2 : runOps st1 l2 = some st2)
    (hfind : storeFind st1.test_results c m = some r)
    (hterm : r.status ≠ Status.untested) :
    storeFind st2.test_results c m = some r :=
  terminal_frozen_aux ops c m hreg hinl hent hconf hphase
    l2 l1 st1 st2 r hsplit h1 h2 hfind hterm

/-- C3 witness: a single-pass run (register then inline completion)
satisfies every restriction and its passed record is indeed left
unchanged by the remaining (empty) suffix. -/
theorem c3_witness :
    regCount [c3Register, c3Inline] "SuiteA" "test_login" ≤ 1 ∧
    inlCount [c3Register, c3Inline] "SuiteA" "test_login" ≤ 1 ∧
    entCount [c3Register, c3Inline] "SuiteA" "test_login" ≤ 1 ∧
    phaseOK [c3Register, c3Inline] = true ∧
    runOps initState [c3Register, c3Inline] = some c3MidState ∧
    storeFind c3MidState.test_results "SuiteA" "test_login" = some c3PassedRecord :=
  ⟨by decide, by decide, by decide, by decide, rfl,
   c3_lifecycle_terminal_frozen [c3Register, c3Inline] [c3Register, c3Inline] []
     "SuiteA" "test_login" c3MidState c3MidState c3PassedRecord rfl
     (by decide) (by decide) (by decide) (fun _ => by decide) (by decide)
     rfl rfl rfl (by decide)⟩

/-- C4 counterexample: with max_attempts = 3 over a target never found
the loop does fail after exactly 3 gestures, but the exception message
names only the locator — it does not name the number of attempts made
(the digit 3 appears nowhere in it), contrary to the claim. -/
theorem c4_counterexample_message_lacks_count :
    swipe_until_visible (fun _ => none) ("xpath", "btn") 3 =
      (.error (.noSuchElement (some (swipeFailMsg ("xpath", "btn")))), 3) ∧
    containsSub (swipeFailMsg ("xpath", "btn")) "3" = false := by
  exact ⟨rfl, by decide⟩

/-- C4 (amended): over a target never found the gesture runs exactly
once per configured attempt (3 for max_attempts = 3) and the operation
fails with a NotFoundError whose message names the locator (but not the
attempt count); over a target found on the 2nd direct check the gesture
runs exactly once and the element is returned. -/
theorem c4_swipe_until_visible_spec :
    (∀ (probe : Nat → Option Elem) (loc : Locator) (n : Nat),
      (∀ i, probe i = none) →
      swipe_until_visible probe loc n =
        (.error (.noSuchElement (some (swipeFailMsg loc))), n)) ∧
    (∀ (probe : Nat → Option Elem) (loc : Locator) (el : Elem),
      probe 0 = none → probe 1 = some el →
      swipe_until_visible probe loc 3 = (.ok el, 1)) := by
  constructor
  · intro probe loc n h
    exact swipe_never_found probe loc h n 0
  · intro probe loc el h0 h1
    simp [swipe_until_visible, swipe_until_visible_from, h0, h1]

/-- C4 witness: concrete never-found and found-on-2nd-check probes. -/
theorem c4_witness :
    swipe_until_visible (fun _ => none) ("id", "cart") 2 =
      (.error (.noSuchElement (some (swipeFailMsg ("id", "cart")))), 2) ∧
    swipe_until_visible (fun i => if i = 1 then some 7 else none)
      ("id", "cart") 3 = (.ok 7, 1) :=
  ⟨c4_swipe_until_visible_spec.1 (fun _ => none) ("id", "cart") 2 (fun _ => rfl),
   c4_swipe_until_visible_spec.2 (fun i => if i = 1 then some 7 else none)
     ("id", "cart") 7 rfl rfl⟩

/-- C5 counterexample: the polling tap builds its wait without a message
keyword, so when the element resolves but every click attempt fails the
tap times out with the bare default message (none) — not the
caller-supplied diagnostic the claim promises for every polling wait. -/
theorem c5_counterexample_tap_bare_timeout :
    tap (fun _ => .ok 0) (fun _ => .error SelExc.staleElement) 5 =
      .error (.timeoutExc none) := rfl

/-- C5 (amended): of the polling waits, the presence wait, multi-element
wait, text wait, invisibility wait and generic condition wait all fail
on timeout with a TimeoutError carrying their caller-supplied diagnostic
message; the polling tap alone times out with no message at all. -/
theorem c5_wait_timeout_messages :
    (∀ (presence : Nat → PollRes Elem) (finalFind : Except SelExc Elem)
       (loc : Locator) (n : Nat), (∀ i, presence i = PollRes.val none) →
      get_element presence finalFind loc n =
        .error (.timeoutExc (some (getElementMsg loc)))) ∧
    (∀ (presence : Nat → PollRes (List Elem)) (finalFind : List Elem)
       (loc : Locator) (n : Nat), (∀ i, presence i = PollRes.val none) →
      get_elements presence finalFind loc n =
        .error (.timeoutExc (some (getElementsMsg loc)))) ∧
    (∀ (world : Nat → Except SelExc (List (Elem × String))) (loc : Locator)
       (text : String) (n : Nat),
      (∀ i, text_to_be_present_in_elements (world i) text = PollRes.val none) →
      wait_for_text_in_elements world loc text n =
        .error (.timeoutExc (some (textMsg loc text)))) ∧
    (∀ (invisible : Nat → PollRes Unit) (loc : Locator) (n : Nat),
      (∀ i, invisible i = PollRes.val none) →
      wait_for_element_to_not_be_visible invisible loc n =
        .error (.timeoutExc (some (invisMsg loc)))) ∧
    (∀ (method : Nat → Except SelExc Nat) (expected : Nat) (n : Nat),
      (∀ i, ∃ v, method i = .ok v ∧ v ≠ expected) →
      wait_for method expected n = .error (.timeoutExc (some waitForMsg))) ∧
    (∀ (ge : Nat → Except SelExc Elem) (click : Nat → Except SelExc Unit)
       (n : Nat),
      (∀ i, ∃ el, ge i = .ok el) → (∀ i, ∃ e, click i = .error e) →
      tap ge click n = .error (.timeoutExc none)) := by
  refine ⟨?_, ?_, ?_, ?_, ?_, ?_⟩
  · intro presence finalFind loc n h
    rw [get_element, waitUntil_never _ _ _ _ h]
  · intro presence finalFind loc n h
    rw [get_elements, waitUntil_never _ _ _ _ h]
  · intro world loc text n h
    exact waitUntil_never _ _ _ _ h
  · intro invisible loc n h
    exact waitUntil_never _ _ _ _ h
  · intro method expected n h
    apply waitUntil_never
    intro i
    obtain ⟨v, hv, hne⟩ := h i
    simp [hv, hne]
  · intro ge click n hge hcl
    apply waitUntil_never
    intro i
    obtain ⟨el, hel⟩ := hge i
    obtain ⟨e, he⟩ := hcl i
    simp [hel, he, bool_click]

/-- C5 witness: each wait instantiated with a concrete never-satisfied
world. -/
theorem c5_witness :
    get_element (fun _ => PollRes.val none) (.ok 0) ("id", "x") 2 =
      .error (.timeoutExc (some (getElementMsg ("id", "x")))) ∧
    get_elements (fun _ => PollRes.val none) [] ("id", "x") 2 =
      .error (.timeoutExc (some (getElementsMsg ("id", "x")))) ∧
    wait_for_text_in_elements (fun _ => .ok []) ("id", "x") "hello" 2 =
      .error (.timeoutExc (some (textMsg ("id", "x") "hello"))) ∧
    wait_for_element_to_not_be_visible (fun _ => PollRes.val none) ("id", "x") 2 =
      .error (.timeoutExc (some (invisMsg ("id", "x")))) ∧
    wait_for (fun _ => .ok 1) 2 4 = .error (.timeoutExc (some waitForMsg)) ∧
    tap (fun _ => .ok 0) (fun _ => .error (SelExc.otherExc 5)) 4 =
      .error (.timeoutExc none) :=
  ⟨c5_wait_timeout_messages.1 (fun _ => PollRes.val none) (.ok 0) ("id", "x") 2
     (fun _ => rfl),
   c5_wait_timeout_messages.2.1 (fun _ => PollRes.val none) [] ("id", "x") 2
     (fun _ => rfl),
   c5_wait_timeout_messages.2.2.1 (fun _ => .ok []) ("id", "x") "hello" 2
     (fun _ => rfl),
   c5_wait_timeout_messages.2.2.2.1 (fun _ => PollRes.val none) ("id", "x") 2
     (fun _ => rfl),
   c5_wait_timeout_messages.2.2.2.2.1 (fun _ => .ok 1) 2 4
     (fun _ => ⟨1, rfl, by decide⟩),
   c5_wait_timeout_messages.2.2.2.2.2 (fun _ => .ok 0)
     (fun _ => .error (SelExc.otherExc 5)) 4
     (fun _ => ⟨0, rfl⟩) (fun _ => ⟨SelExc.otherExc 5, rfl⟩)⟩

/-- C6: op_click_element resolves and clicks once; exactly when that
attempt raises StaleElementReferenceException it re-resolves and clicks
exactly once more, and whatever the second attempt produces — success or
any error — propagates unchanged; any non-stale first outcome
propagates with no retry. -/
theorem c6_op_click_element_spec :
    (∀ second : Except SelExc Unit,
      op_click_element (.error SelExc.staleElement) second = (second, 2)) ∧
    (∀ (first second : Except SelExc Unit),
      first ≠ .error SelExc.staleElement →
      op_click_element first second = (first, 1)) := by
  constructor
  · intro second
    rfl
  · intro first second h
    cases first with
    | ok v => rfl
    | error e =>
      cases e with
      | staleElement => exact absurd rfl h
      | noSuchElement msg => rfl
      | timeoutExc msg => rfl
      | otherExc t => rfl

/-- C6 witness: a stale first attempt leads to the second outcome after
two attempts; a non-stale error propagates unchanged after one. -/
theorem c6_witness :
    op_click_element (.error SelExc.staleElement) (.ok ()) = (.ok (), 2) ∧
    op_click_element (.error (SelExc.otherExc 4)) (.ok ()) =
      (.error (SelExc.otherExc 4), 1) :=
  ⟨c6_op_click_element_spec.1 (.ok ()),
   c6_op_click_element_spec.2 (.error (SelExc.otherExc 4)) (.ok ())
     (by intro h; injection h with h2; exact SelExc.noConfusion h2)⟩

/-- C7: inline completion on an existing record always sets end_time to
the current tick and duration to end_time minus start_time, sets status
to passed exactly when the outcome inspection reports success (or the
record already was passed), and never itself produces a failed status. -/
theorem c7_inline_completion_spec (s : Store) (c m : String) (r : TestRecord)
    (now : Nat) (outcome : Option Bool)
    (h : storeFind s c m = some r) :
    ∃ s2 r2, add_test_case_result s c m now outcome = some s2 ∧
      storeFind s2 c m = some r2 ∧
      r2.end_time = some now ∧
      r2.duration = some ((now : Int) - (r.start_time : Int)) ∧
      (r2.status = Status.passed ↔
        (outcome = some true ∨ r.status = Status.passed)) ∧
      (r2.status = Status.failed ↔
        (¬outcome = some true ∧ r.status = Status.failed)) := by
  obtain ⟨s2, hupd, hself, -⟩ := updateRecord_spec
    (fun r => { r with
      end_time := some now
      duration := some ((now : Int) - (r.start_time : Int))
      status := if outcome = some true then Status.passed else r.status }) h
  refine ⟨s2, _, hupd, hself, rfl, rfl, ?_, ?_⟩
  · by_cases hoc : outcome = some true <;> simp [hoc]
  · by_cases hoc : outcome = some true <;> simp [hoc]

/-- C7 witness: completing a fresh record at tick 9 with a successful
outcome sets end_time, duration and status passed. -/
theorem c7_witness :
    storeFind c7Store "S" "t" = some (freshRecord 2 "f" TestTarget.API) ∧
    (∃ s2 r2, add_test_case_result c7Store "S" "t" 9 (some true) = some s2 ∧
      storeFind s2 "S" "t" = some r2 ∧
      r2.end_time = some 9 ∧
      r2.duration = some ((9 : Int) - ((freshRecord 2 "f" TestTarget.API).start_time : Int)) ∧
      (r2.status = Status.passed ↔
        (some true = some true ∨ (freshRecord 2 "f" TestTarget.API).status = Status.passed)) ∧
      (r2.status = Status.failed ↔
        (¬(some true : Option Bool) = some true ∧
          (freshRecord 2 "f" TestTarget.API).status = Status.failed))) :=
  ⟨rfl, c7_inline_completion_spec c7Store "S" "t"
    (freshRecord 2 "f" TestTarget.API) 9 (some true) rfl⟩

/-- C8: try_fetch returns the action's value unchanged, converts a
NoSuchElementException into an absent (none) result, and propagates any
other exception untouched. -/
theorem c8_try_fetch_spec :
    (∀ (α : Type) (v : α), try_fetch (.ok v) = .ok (some v)) ∧
    (∀ (α : Type) (msg : Option String),
      try_fetch (α := α) (.error (.noSuchElement msg)) = .ok none) ∧
    (∀ (α : Type) (e : SelExc), isNoSuch e = false →
      try_fetch (α := α) (.error e) = .error e) := by
  refine ⟨fun α v => rfl, fun α msg => rfl, fun α e h => ?_⟩
  simp [try_fetch, h]

/-- C8 witness: a found value, an absent element and a stale error each
behave as specified. -/
theorem c8_witness :
    try_fetch (.ok (7 : Elem)) = .ok (some 7) ∧
    try_fetch (α := Elem) (.error (.noSuchElement none)) = .ok none ∧
    try_fetch (α := Elem) (.error SelExc.staleElement) =
      .error SelExc.staleElement :=
  ⟨c8_try_fetch_spec.1 Elem 7, c8_try_fetch_spec.2.1 Elem none,
   c8_try_fetch_spec.2.2 Elem SelExc.staleElement rfl⟩

/-- C9 counterexample: on a store holding a single untested record
(p = 0, f = 0, u = 1) the aggregator does log the warning but then
raises ZeroDivisionError (modelled none) instead of returning totals
with total = p + f = 0, so the claim fails for stores with no terminal
records. -/
theorem c9_counterexample_empty_total_raises :
    get_testrun_totals [("SuiteB", [("test_x", freshRecord 1 "feat" TestTarget.UI)])] =
      (["Unrecognized result status: " ++ Status.untested.str], none) := rfl

/-- C9 (amended): for any store with p passed, f failed and u
other-status records where p + f > 0, the aggregator returns
total = p + f (untested records excluded from both counts), emits one
warning per untested record, and the two percentages (before one-decimal
formatting) sum to exactly 100. -/
theorem c9_totals_spec (s : Store)
    (h : 0 < countPassed s + countFailed s) :
    (get_testrun_totals s).2 = some
      { total_testcases := countPassed s + countFailed s
        passed_testcases := countPassed s
        failed_testcases := countFailed s
        passed_percentage := format1f
          (((countPassed s : ℚ) / ((countPassed s + countFailed s : Nat) : ℚ)) * 100) ++ "%"
        failed_percentage := format1f
          (((countFailed s : ℚ) / ((countPassed s + countFailed s : Nat) : ℚ)) * 100) ++ "%" } ∧
    (get_testrun_totals s).1.length = countUntested s ∧
    ((countPassed s : ℚ) / ((countPassed s + countFailed s : Nat) : ℚ)) * 100 +
      ((countFailed s : ℚ) / ((countPassed s + countFailed s : Nat) : ℚ)) * 100 = 100 := by
  have ht : ¬(countPassed s + countFailed s = 0) := by omega
  refine ⟨?_, ?_, ?_⟩
  · simp only [get_testrun_totals, if_neg ht]
  · simp only [get_testrun_totals, if_neg ht]
    rw [List.length_map, ← List.countP_eq_length_filter, countUntested]
    apply List.countP_congr
    intro r _
    cases r.status <;> simp [Status.str]
  · have hcast : ((countPassed s + countFailed s : Nat) : ℚ) =
        (countPassed s : ℚ) + (countFailed s : ℚ) := by push_cast; ring
    have htq : (countPassed s : ℚ) + (countFailed s : ℚ) ≠ 0 := by
      have h2 : (0 : ℚ) < (countPassed s : ℚ) + (countFailed s : ℚ) := by
        exact_mod_cast h
      exact ne_of_gt h2
    rw [hcast, div_mul_eq_mul_div, div_mul_eq_mul_div, div_add_div_same,
      div_eq_iff htq]
    ring

/-- C9 witness: a store with one passed, one failed and one untested
record yields total 2 and percentages summing to 100. -/
theorem c9_witness :
    0 < countPassed c9Store + countFailed c9Store ∧
    ((get_testrun_totals c9Store).2 = some
      { total_testcases := countPassed c9Store + countFailed c9Store
        passed_testcases := countPassed c9Store
        failed_testcases := countFailed c9Store
        passed_percentage := format1f
          (((countPassed c9Store : ℚ) / ((countPassed c9Store + countFailed c9Store : Nat) : ℚ)) * 100) ++ "%"
        failed_percentage := format1f
          (((countFailed c9Store : ℚ) / ((countPassed c9Store + countFailed c9Store : Nat) : ℚ)) * 100) ++ "%" } ∧
    (get_testrun_totals c9Store).1.length = countUntested c9Store ∧
    ((countPassed c9Store : ℚ) / ((countPassed c9Store + countFailed c9Store : Nat) : ℚ)) * 100 +
      ((countFailed c9Store : ℚ) / ((countPassed c9Store + countFailed c9Store : Nat) : ℚ)) * 100 = 100) :=
  ⟨by decide, c9_totals_spec c9Store (by decide)⟩

/-- C10: _bool_click turns every raised exception — transient or not —
into False, so over an element that always resolves but whose click
always raises (any error kind whatsoever), the polling tap never aborts
early and surfaces only the (bare) TimeoutError once the budget is
exhausted. -/
theorem c10_tap_swallows_click_errors :
    (∀ e : SelExc, bool_click (.error e) = false) ∧
    (∀ (ge : Nat → Except SelExc Elem) (click : Nat → Except SelExc Unit)
       (n : Nat),
      (∀ i, ∃ el, ge i = .ok el) → (∀ i, ∃ e, click i = .error e) →
      tap ge click n = .error (.timeoutExc none)) := by
  constructor
  · intro e
    rfl
  · intro ge click n hge hcl
    apply waitUntil_never
    intro i
    obtain ⟨el, hel⟩ := hge i
    obtain ⟨e, he⟩ := hcl i
    simp [hel, he, bool_click]

/-- C10 witness: a click raising a non-transient error on every tick
still only surfaces as the timeout. -/
theorem c10_witness :
    bool_click (.error (SelExc.otherExc 7)) = false ∧
    tap (fun _ => .ok 0) (fun _ => .error (SelExc.otherExc 7)) 4 =
      .error (.timeoutExc none) :=
  ⟨c10_tap_swallows_click_errors.1 (SelExc.otherExc 7),
   c10_tap_swallows_click_errors.2 (fun _ => .ok 0)
     (fun _ => .error (SelExc.otherExc 7)) 4
     (fun _ => ⟨0, rfl⟩) (fun _ => ⟨SelExc.otherExc 7, rfl⟩)⟩

end QLTY
